/-
Verification of the ReleaseReport core subsystems against their
natural-language specification.

The development shallowly embeds the two algorithmic subsystems of the
repository:

* the multi-tracker resolution engine
  (`src/services/multi_tracker_service.py` together with the dataclasses of
  `src/services/multi_tracker_models.py`): fan-out of a task-id batch over
  several tracker backends, primary-result selection, field-level merge and
  deduplication;

* the metadata change detector (`src/services/metadata_service.py`):
  identity-keyed structural diff of two document snapshots and the two
  identity-derivation paths (well-formed parse and degraded regex parse).

Python dictionaries are embedded as insertion-ordered association lists
(`List (key × value)`); `dict.get(k, d)`/`k in dict` become `List.lookup`.
Backend calls, wall-clock time and regex matching are external effects: a
backend call is embedded as its outcome (`Except errorMessage records`), the
elapsed time of a call as an explicit millisecond argument, and the regex
scan of `_parse_xml_with_regex` as the list of matches it yields.  Thread
completion order of the fan-out is embedded as an explicit arrival order of
the tracker entries.  Everything else is translated line by line from the
Python source.
-/
import Mathlib

namespace ReleaseReport

/-! ## Data model (`multi_tracker_models.py`) -/

/-- `TaskTrackerType` enum: jira / onec / none. -/
inductive TaskTrackerType
  | jira
  | onec
  | noneType
deriving DecidableEq, Repr

/-- A value stored in a task's field map.  Task fields coming from backends
are strings; the provenance keys `_trackers` and `_merged_fields` added by
`_merge_task_data` hold lists of strings. -/
inductive Value
  | str (s : String)
  | strList (l : List String)
deriving DecidableEq, Repr

/-- Python truthiness test `not value` used by `_merge_task_data`:
an empty string and an empty list are falsy. -/
def Value.isEmptyV : Value → Bool
  | .str s => s = ""
  | .strList l => l.isEmpty

/-- A task's raw field map (`task_data` dict). -/
abbrev FieldMap := List (String × Value)

/-- `TaskSearchResult` dataclass. -/
structure TaskSearchResult where
  tracker_name : String
  tracker_type : TaskTrackerType
  task_data : FieldMap
  found : Bool
  error : Option String := none
  response_time_ms : Option Nat := none
deriving DecidableEq, Repr

/-- `TaskTrackerConfig` dataclass (the fields the resolution engine reads;
the opaque backend `config` dict and the human `description` play no role in
the resolution algorithms). -/
structure TaskTrackerConfig where
  name : String
  type : TaskTrackerType
  enabled : Bool := true
  priority : Int := 0
deriving DecidableEq, Repr

/-- `MultiTrackerConfig` dataclass. -/
structure MultiTrackerConfig where
  trackers : List TaskTrackerConfig
  deduplication_enabled : Bool := true
  merge_strategy : String := "priority"
  timeout_seconds : Int := 30
deriving DecidableEq, Repr

/-- `MultiTaskResult` dataclass.  `found_in_trackers` is the value computed
by `__post_init__` from `results`. -/
structure MultiTaskResult where
  task_number : String
  results : List TaskSearchResult
  primary_result : Option TaskSearchResult := none
  merged_data : Option FieldMap := none
  found_in_trackers : List String := []
deriving DecidableEq, Repr

/-! ## Python-dict helpers -/

/-- Worker for `dedupFirst`: keep the elements not seen yet. -/
def dedupFirstAux {α : Type} [DecidableEq α] (seen : List α) :
    List α → List α
  | [] => []
  | x :: xs =>
    if x ∈ seen then dedupFirstAux seen xs
    else x :: dedupFirstAux (x :: seen) xs

/-- Key list of a Python dict built by repeated `d[k] = v` assignments over
a key sequence: first occurrence of each key, in insertion order. -/
def dedupFirst {α : Type} [DecidableEq α] (l : List α) : List α :=
  dedupFirstAux [] l

/-- Python dict assignment `d[k] = v` on an insertion-ordered association
list: an existing key keeps its position and gets the new value, a new key
is appended at the end. -/
def dictUpd {α : Type} (m : List (String × α)) (k : String) (v : α) :
    List (String × α) :=
  if (m.lookup k).isSome then
    m.map (fun p => if p.1 = k then (k, v) else p)
  else
    m ++ [(k, v)]

/-! ## Multi-tracker service (`multi_tracker_service.py`) -/

/-- The dict comprehension
`{tc.name: tc.priority for tc in self.multi_tracker_config.trackers}`
followed by `.get(name, 999)` (later duplicate names overwrite earlier
ones, hence the reversed search). -/
def trackerPriority (trackers : List TaskTrackerConfig) (name : String) : Int :=
  match trackers.reverse.find? (fun t => t.name = name) with
  | some t => t.priority
  | none => 999

/-- Python `min(x :: xs, key = f)`: scan left to right, replacing the current
best only on a strictly smaller key, so the first minimizer wins. -/
def minByKey {α : Type} (f : α → Int) : α → List α → α
  | x, [] => x
  | x, y :: ys => if f y < f x then minByKey f y ys else minByKey f x ys

/-- `MultiTrackerService._determine_primary_result`. -/
def determinePrimaryResult (cfg : MultiTrackerConfig)
    (results : List TaskSearchResult) : Option TaskSearchResult :=
  match results.filter (·.found) with
  | [] => none
  | r :: rs =>
    if cfg.merge_strategy = "priority" then
      some (minByKey (fun x => trackerPriority cfg.trackers x.tracker_name) r rs)
    else if cfg.merge_strategy = "first_found" then
      some r
    else
      some r

/-- Insertion step of a stable ascending sort by key: the inserted element
(the earlier one in the original list) goes before every element with an
equal or larger key. -/
def insertSorted {α : Type} (f : α → Int) (x : α) : List α → List α
  | [] => [x]
  | y :: ys => if f x ≤ f y then x :: y :: ys else y :: insertSorted f x ys

/-- Python `sorted(l, key = f)`: a stable ascending sort. -/
def sortByKey {α : Type} (f : α → Int) : List α → List α
  | [] => []
  | x :: xs => insertSorted f x (sortByKey f xs)

/-- The inner loop body of `_merge_task_data`:
`if key not in merged_data or not merged_data[key]: merged_data[key] = value;
if key not in merged_fields: merged_fields.append(key)`. -/
def mergeStep (acc : FieldMap × List String) (kv : String × Value) :
    FieldMap × List String :=
  match acc.1.lookup kv.1 with
  | none =>
    (dictUpd acc.1 kv.1 kv.2,
     if kv.1 ∈ acc.2 then acc.2 else acc.2 ++ [kv.1])
  | some v =>
    if v.isEmptyV then
      (dictUpd acc.1 kv.1 kv.2,
       if kv.1 ∈ acc.2 then acc.2 else acc.2 ++ [kv.1])
    else acc

/-- The `(merged_data, merged_fields)` pair accumulated by
`_merge_task_data` over the priority-sorted found results. -/
def mergeFold (cfg : MultiTrackerConfig) (found_results : List TaskSearchResult) :
    FieldMap × List String :=
  let sorted := sortByKey
    (fun r => trackerPriority cfg.trackers r.tracker_name) found_results
  sorted.foldl (fun acc r => r.task_data.foldl mergeStep acc) ([], [])

/-- The `merged_fields` list recorded by `_merge_task_data`. -/
def mergeTaskDataFields (cfg : MultiTrackerConfig)
    (results : List TaskSearchResult) : List String :=
  (mergeFold cfg (results.filter (·.found))).2

/-- `MultiTrackerService._merge_task_data`. -/
def mergeTaskData (cfg : MultiTrackerConfig)
    (results : List TaskSearchResult) : FieldMap :=
  match results.filter (·.found) with
  | [] => []
  | [r] => r.task_data
  | _ :: _ :: _ =>
    let found_results := results.filter (·.found)
    let merged := mergeFold cfg found_results
    dictUpd
      (dictUpd merged.1 "_trackers"
        (.strList (found_results.map (·.tracker_name))))
      "_merged_fields" (.strList merged.2)

/-- `MultiTrackerService._search_tasks_in_tracker`.  The backend call
`service.get_task_details(task_numbers)` is embedded as its outcome: either
the returned list of task field maps or the message of the raised
exception; the wall-clock duration of the call is the explicit
`elapsed_ms`.  The produced dict has one entry per distinct requested
task id. -/
def searchTasksInTracker (tracker_name : String)
    (tracker_type : TaskTrackerType)
    (outcome : Except String (List FieldMap)) (elapsed_ms : Nat)
    (task_numbers : List String) : List (String × TaskSearchResult) :=
  match outcome with
  | .ok task_details =>
    (dedupFirst task_numbers).map fun n =>
      match task_details.find?
          (fun t => t.lookup "task_number" == some (.str n)) with
      | some td =>
        (n, { tracker_name := tracker_name, tracker_type := tracker_type,
              task_data := td, found := true,
              response_time_ms := some elapsed_ms })
      | none =>
        (n, { tracker_name := tracker_name, tracker_type := tracker_type,
              task_data := [], found := false,
              response_time_ms := some elapsed_ms })
  | .error e =>
    (dedupFirst task_numbers).map fun n =>
      (n, { tracker_name := tracker_name, tracker_type := tracker_type,
            task_data := [], found := false, error := some e,
            response_time_ms := some elapsed_ms })

deriving instance DecidableEq for Except

/-- One entry of `self.tracker_services` together with the behaviour of its
backend during the pass: the outcome of its batched query and the
wall-clock duration of that query. -/
structure TrackerEntry where
  name : String
  type : TaskTrackerType
  outcome : Except String (List FieldMap)
  elapsed_ms : Nat
deriving DecidableEq, Repr

/-- `MultiTrackerService._search_tasks_parallel`.  `order` is the list of
enabled, successfully-constructed trackers in thread completion
(`as_completed`) order; the produced map has one key per distinct requested
id and, under each id, the per-tracker results appended in completion
order. -/
def searchTasksParallel (order : List TrackerEntry)
    (task_numbers : List String) : List (String × List TaskSearchResult) :=
  (dedupFirst task_numbers).map fun n =>
    (n, order.filterMap (fun trk =>
      (searchTasksInTracker trk.name trk.type trk.outcome trk.elapsed_ms
        task_numbers).lookup n))

/-- `MultiTrackerService._process_multi_tracker_results`. -/
def processMultiTrackerResults (cfg : MultiTrackerConfig)
    (all_results : List (String × List TaskSearchResult)) :
    List MultiTaskResult :=
  all_results.map fun p =>
    let primary := determinePrimaryResult cfg p.2
    { task_number := p.1
      results := p.2
      primary_result := primary
      merged_data := if primary.isSome then some (mergeTaskData cfg p.2) else none
      found_in_trackers := (p.2.filter (·.found)).map (·.tracker_name) }

/-- `MultiTrackerService._is_better_result` (both arguments are only ever
compared when their primary results exist; a missing primary contributes
the empty tracker name). -/
def isBetterResult (cfg : MultiTrackerConfig)
    (new_result existing_result : MultiTaskResult) : Bool :=
  trackerPriority cfg.trackers
      ((new_result.primary_result.map (·.tracker_name)).getD "") <
    trackerPriority cfg.trackers
      ((existing_result.primary_result.map (·.tracker_name)).getD "")

/-- Python `a or b` for `result.merged_data or
result.primary_result.task_data`: `None` and the empty dict are falsy. -/
def pyOrFieldMap (m : Option FieldMap) (d : FieldMap) : FieldMap :=
  match m with
  | none => d
  | some l => if l.isEmpty then d else l

/-- `MultiTrackerService._deduplicate_tasks`: build `task_map` keyed by task
number (skipping results without a primary, replacing an existing entry when
the new one is better), then project each kept entry to its merged data or,
failing that, its primary result's task data. -/
def deduplicateTasks (cfg : MultiTrackerConfig)
    (results : List MultiTaskResult) : List FieldMap :=
  let task_map := results.foldl
    (fun acc r =>
      match r.primary_result with
      | none => acc
      | some _ =>
        match acc.lookup r.task_number with
        | some existing =>
          if isBetterResult cfg r existing then
            dictUpd acc r.task_number r
          else acc
        | none => acc ++ [(r.task_number, r)])
    []
  task_map.map fun p =>
    pyOrFieldMap p.2.merged_data
      ((p.2.primary_result.map (·.task_data)).getD [])

/-- One element of the list returned by
`MultiTrackerService.get_task_details`: with deduplication enabled the list
holds task field maps, with deduplication disabled it holds the raw
`MultiTaskResult` bundles. -/
inductive TaskEntry
  | data (d : FieldMap)
  | bundle (b : MultiTaskResult)
deriving DecidableEq, Repr

/-- `MultiTrackerService.get_task_details`. -/
def getTaskDetails (cfg : MultiTrackerConfig) (order : List TrackerEntry)
    (task_numbers : List String) : List TaskEntry :=
  if task_numbers.isEmpty then []
  else
    let all_results := searchTasksParallel order task_numbers
    let processed := processMultiTrackerResults cfg all_results
    if cfg.deduplication_enabled then
      (deduplicateTasks cfg processed).map .data
    else
      processed.map .bundle

/-! ## Metadata change detector (`metadata_service.py`) -/

/-- The per-element dict built by `_parse_xml_elements` /
`_parse_xml_with_regex`: identity, tag, attribute map, stripped text,
child count and structural path. -/
structure ElemData where
  id : String
  tag : String
  attributes : List (String × String)
  text : String
  children_count : Nat
  path : String
deriving DecidableEq, Repr

/-- One entry of the `modified` list of `_analyze_xml_changes`. -/
structure ModifiedEntry where
  id : String
  old_data : ElemData
  new_data : ElemData
  changes : List String
deriving DecidableEq, Repr

/-- The `{'added': …, 'removed': …, 'modified': …}` dict returned by
`_analyze_xml_changes`. -/
structure ChangeSet where
  added : List ElemData
  removed : List ElemData
  modified : List ModifiedEntry
deriving DecidableEq, Repr

/-- `MetadataService._get_element_changes`.  The union
`set(old_attrs) | set(new_attrs)` is iterated in an unspecified hash order
in Python; it is embedded here as the old keys followed by the new-only
keys.  The claims under verification depend only on which element
identities carry a change list, never on the order or wording of the
descriptions. -/
def getElementChanges (old_data new_data : ElemData) : List String :=
  let old_attrs := old_data.attributes
  let new_attrs := new_data.attributes
  let keys := dedupFirst (old_attrs.map (·.1)) ++
    (dedupFirst (new_attrs.map (·.1))).filter
      (fun k => (old_attrs.lookup k).isNone)
  let attrChanges := keys.filterMap fun k =>
    let old_val := (old_attrs.lookup k).getD ""
    let new_val := (new_attrs.lookup k).getD ""
    if old_val ≠ new_val then
      if (old_attrs.lookup k).isNone then
        some ("added attribute " ++ k ++ "=" ++ new_val)
      else if (new_attrs.lookup k).isNone then
        some ("removed attribute " ++ k ++ "=" ++ old_val)
      else
        some ("changed attribute " ++ k ++ ": " ++ old_val ++ " -> " ++ new_val)
    else none
  if old_data.text ≠ new_data.text then
    attrChanges ++
      ["changed text: " ++ old_data.text.take 100 ++ " -> " ++
        new_data.text.take 100]
  else attrChanges

/-- `MetadataService._analyze_xml_changes` applied to the two parsed
identity-keyed element maps: one pass over `new` classifying added /
modified, one pass over `old` classifying removed. -/
def analyzeXmlChanges (old_elements new_elements : List (String × ElemData)) :
    ChangeSet :=
  { added := (new_elements.filter
      (fun p => (old_elements.lookup p.1).isNone)).map (·.2)
    modified := new_elements.filterMap fun p =>
      match old_elements.lookup p.1 with
      | none => none
      | some od =>
        if od ≠ p.2 then
          some { id := p.1, old_data := od, new_data := p.2,
                 changes := getElementChanges od p.2 }
        else none
    removed := (old_elements.filter
      (fun p => (new_elements.lookup p.1).isNone)).map (·.2) }

/-- An element as seen by the well-formed (`xml.etree.ElementTree`) parse
path: tag, attribute dict and optional raw text. -/
structure XmlElement where
  tag : String
  attrib : List (String × String)
  text : Option String
deriving DecidableEq, Repr

/-- `element.text.strip() if element.text else ''`. -/
def stripText : Option String → String
  | some s => s.trim
  | none => ""

/-- `MetadataService._get_element_path`: `ElementTree` elements have no
`getparent` attribute, so the `hasattr` probe fails on the first iteration
and the path is just the element's own tag. -/
def getElementPath (e : XmlElement) : String := e.tag

/-- `MetadataService._get_element_identifier`: prefer the `id` attribute,
else `name`, else `type`, else structural path plus the first 50 characters
of the stripped text (bare path when the text is empty). -/
def getElementIdentifier (e : XmlElement) : String :=
  match e.attrib.lookup "id" with
  | some v => e.tag ++ "@" ++ v
  | none =>
    match e.attrib.lookup "name" with
    | some v => e.tag ++ "@" ++ v
    | none =>
      match e.attrib.lookup "type" with
      | some v => e.tag ++ "@" ++ v
      | none =>
        let path := getElementPath e
        let text := stripText e.text
        if text ≠ "" then path ++ "#" ++ text.take 50 else path

/-- One match of the degraded parse path's element regex
`<(\w+)([^>]*)>(.*?)</\1>`: tag, the attribute dict extracted from the
attribute string, and the enclosed content. -/
structure RegexMatch where
  tag : String
  attrs : List (String × String)
  content : String
deriving DecidableEq, Repr

/-- Identity derivation of `MetadataService._parse_xml_with_regex` for the
`i`-th match: `tag@i`, overridden by `tag@id` when an `id` attribute exists,
else by `tag@name` when a `name` attribute exists.  The `type` attribute and
the path/text fallback of the well-formed path play no role here. -/
def regexElementId (i : Nat) (m : RegexMatch) : String :=
  match m.attrs.lookup "id" with
  | some v => m.tag ++ "@" ++ v
  | none =>
    match m.attrs.lookup "name" with
    | some v => m.tag ++ "@" ++ v
    | none => m.tag ++ "@" ++ toString i

/-- `MetadataService._parse_xml_with_regex`, given the list of regex
matches found in the document. -/
def parseXmlWithRegex (ms : List RegexMatch) :
    List (String × ElemData) :=
  (ms.enum).foldl
    (fun acc p =>
      let eid := regexElementId p.1 p.2
      dictUpd acc eid
        { id := eid, tag := p.2.tag, attributes := p.2.attrs,
          text := p.2.content.trim, children_count := 0, path := p.2.tag })
    []

/-- The dict returned by `GitLabService.get_file_changes_since` (an
external collaborator): whether the file changed and the two commit ids
bounding the change window. -/
structure FileChanges where
  has_changes : Bool
  since_commit_id : String
  current_commit_id : String
deriving DecidableEq, Repr

/-- The result dict of `MetadataService.analyze_metadata_changes`
(restricted to the fields the claims speak about). -/
structure MetadataResult where
  has_changes : Bool
  added : List ElemData
  removed : List ElemData
  modified : List ModifiedEntry
deriving DecidableEq, Repr

/-- `MetadataService.analyze_metadata_changes` on its non-raising path.
`parse` embeds `_parse_xml_elements` (a deterministic function of the file
content), `contentAt` embeds `_get_file_content_at_commit`.  When the
GitLab diff reports no change the method returns `has_changes = False` with
empty lists without parsing anything; otherwise it parses both snapshots
(an empty content string is treated as the empty element map) and returns
`has_changes = True` together with the computed change lists. -/
def analyzeMetadataChanges (parse : String → List (String × ElemData))
    (fileChanges : FileChanges) (contentAt : String → String) :
    MetadataResult :=
  if !fileChanges.has_changes then
    { has_changes := false, added := [], removed := [], modified := [] }
  else
    let old_content := contentAt fileChanges.since_commit_id
    let new_content := contentAt fileChanges.current_commit_id
    let old_elements := if old_content = "" then [] else parse old_content
    let new_elements := if new_content = "" then [] else parse new_content
    let res := analyzeXmlChanges old_elements new_elements
    { has_changes := true, added := res.added, removed := res.removed,
      modified := res.modified }

/-! ## Helper lemmas -/

theorem lookup_append {α : Type} (m1 m2 : List (String × α)) (k : String) :
    (m1 ++ m2).lookup k =
      match m1.lookup k with
      | some v => some v
      | none => m2.lookup k := by
  induction m1 with
  | nil => simp [List.lookup]
  | cons p t ih =>
    simp only [List.cons_append, List.lookup]
    cases h : (k == p.1) <;> simp [ih]

theorem lookup_mapReplace_self {α : Type} (m : List (String × α)) (k : String)
    (v : α) (h : (m.lookup k).isSome) :
    (m.map (fun p => if p.1 = k then (k, v) else p)).lookup k = some v := by
  induction m with
  | nil => simp [List.lookup] at h
  | cons p t ih =>
    by_cases hp : p.1 = k
    · rw [List.map_cons, if_pos hp]
      simp [List.lookup]
    · have hk : (k == p.1) = false := by
        simp only [beq_eq_false_iff_ne, ne_eq]
        exact fun he => hp he.symm
      simp only [List.lookup, hk] at h
      rw [List.map_cons, if_neg hp]
      simp only [List.lookup, hk]
      exact ih h

theorem lookup_mapReplace_ne {α : Type} (m : List (String × α)) (k k' : String)
    (v : α) (h : k' ≠ k) :
    (m.map (fun p => if p.1 = k then (k, v) else p)).lookup k' = m.lookup k' := by
  induction m with
  | nil => simp
  | cons p t ih =>
    by_cases hp : p.1 = k
    · have hk : (k' == k) = false := by simp [h]
      have hk2 : (k' == p.1) = false := by rw [hp]; exact hk
      rw [List.map_cons, if_pos hp]
      simp only [List.lookup, hk, hk2]
      exact ih
    · rw [List.map_cons, if_neg hp]
      simp only [List.lookup]
      cases hkp : (k' == p.1) <;> simp [ih]

/-- Lookup after a Python dict assignment: the assigned key reads the new
value, every other key is untouched. -/
theorem lookup_dictUpd {α : Type} (m : List (String × α)) (k k' : String)
    (v : α) :
    (dictUpd m k v).lookup k' = if k' = k then some v else m.lookup k' := by
  unfold dictUpd
  by_cases hk : k' = k
  · subst hk
    split
    · next h => exact (lookup_mapReplace_self m k' v h).trans rfl |>.trans (by simp)
    · next h =>
      rw [lookup_append]
      have : m.lookup k' = none := by
        cases hl : m.lookup k' with
        | none => rfl
        | some w => rw [hl] at h; simp at h
      rw [this]
      simp [List.lookup]
  · split
    · simp [lookup_mapReplace_ne m k k' v hk, hk]
    · rw [lookup_append]
      have hkk : (k' == k) = false := by simp [hk]
      cases hl : m.lookup k' with
      | none => simp [List.lookup, hkk]
      | some w => simp

theorem mem_dedupFirstAux {α : Type} [DecidableEq α] (l : List α)
    (seen : List α) (a : α) :
    a ∈ dedupFirstAux seen l ↔ a ∈ l ∧ a ∉ seen := by
  induction l generalizing seen with
  | nil => simp [dedupFirstAux]
  | cons x xs ih =>
    rw [dedupFirstAux]
    by_cases hx : x ∈ seen
    · rw [if_pos hx, ih]
      constructor
      · exact fun ⟨h1, h2⟩ => ⟨List.mem_cons_of_mem x h1, h2⟩
      · rintro ⟨h1, h2⟩
        rcases List.mem_cons.mp h1 with h | h
        · exact absurd (h ▸ hx) h2
        · exact ⟨h, h2⟩
    · rw [if_neg hx]
      constructor
      · intro h
        rcases List.mem_cons.mp h with h | h
        · exact ⟨h ▸ List.mem_cons_self x xs, h ▸ hx⟩
        · rcases (ih (x :: seen)).mp h with ⟨h1, h2⟩
          exact ⟨List.mem_cons_of_mem x h1,
            fun hs => h2 (List.mem_cons_of_mem x hs)⟩
      · rintro ⟨h1, h2⟩
        rcases List.mem_cons.mp h1 with h | h
        · exact h ▸ List.mem_cons_self _ _
        · by_cases hax : a = x
          · exact hax ▸ List.mem_cons_self _ _
          · exact List.mem_cons_of_mem _ ((ih (x :: seen)).mpr
              ⟨h, fun hs => by
                rcases List.mem_cons.mp hs with h3 | h3
                · exact hax h3
                · exact h2 h3⟩)

theorem mem_dedupFirst {α : Type} [DecidableEq α] (l : List α) (a : α) :
    a ∈ dedupFirst l ↔ a ∈ l := by
  rw [dedupFirst, mem_dedupFirstAux]
  simp

theorem lookup_map_self {α : Type} (l : List String) (f : String → α)
    (k : String) (h : k ∈ l) :
    ((l.map fun x => (x, f x)).lookup k) = some (f k) := by
  induction l with
  | nil => simp at h
  | cons x xs ih =>
    rcases List.mem_cons.mp h with hx | hx
    · subst hx
      simp [List.lookup]
    · by_cases hkx : k = x
      · subst hkx
        simp [List.lookup]
      · have : (k == x) = false := by simp [hkx]
        simp only [List.map_cons, List.lookup, this]
        exact ih hx

theorem filterMap_eq_map_of_all_some {α β : Type} (l : List α)
    (g : α → Option β) (h : β → Prop) [DecidablePred h]
    (hg : ∀ a ∈ l, ∃ b, g a = some b ∧ h b) :
    ∀ b ∈ l.filterMap g, h b := by
  intro b hb
  rcases List.mem_filterMap.mp hb with ⟨a, ha, hab⟩
  rcases hg a ha with ⟨b', hb', hhb⟩
  rw [hb'] at hab
  cases hab
  exact hhb

theorem lookup_isSome_of_mem {α : Type} {m : List (String × α)} {k : String}
    {d : α} (h : (k, d) ∈ m) : (m.lookup k).isSome := by
  induction m with
  | nil => simp at h
  | cons p t ih =>
    rcases List.mem_cons.mp h with hp | hp
    · simp [List.lookup, ← hp]
    · simp only [List.lookup]
      cases hk : (k == p.1)
      · exact ih hp
      · simp

theorem lookup_eq_some_of_mem_nodup {α : Type} {m : List (String × α)}
    {k : String} {d : α} (hnodup : (m.map (·.1)).Nodup) (h : (k, d) ∈ m) :
    m.lookup k = some d := by
  induction m with
  | nil => simp at h
  | cons p t ih =>
    simp only [List.map_cons, List.nodup_cons] at hnodup
    rcases List.mem_cons.mp h with hp | hp
    · simp [List.lookup, ← hp]
    · have hk : k ≠ p.1 := by
        intro he
        exact hnodup.1 (he ▸ List.mem_map.mpr ⟨(k, d), hp, rfl⟩)
      have hkb : (k == p.1) = false := by simp [hk]
      simp only [List.lookup, hkb]
      exact ih hnodup.2 hp

theorem minByKey_mem {α : Type} (f : α → Int) (x : α) (xs : List α) :
    minByKey f x xs ∈ x :: xs := by
  induction xs generalizing x with
  | nil => simp [minByKey]
  | cons y ys ih =>
    rw [minByKey]
    split
    · rcases List.mem_cons.mp (ih y) with h | h
      · simp [h]
      · simp [List.mem_cons_of_mem, h]
    · rcases List.mem_cons.mp (ih x) with h | h
      · simp [h]
      · simp [List.mem_cons_of_mem, h]

theorem minByKey_le {α : Type} (f : α → Int) (x : α) (xs : List α) :
    ∀ y ∈ x :: xs, f (minByKey f x xs) ≤ f y := by
  induction xs generalizing x with
  | nil =>
    intro y hy
    rcases List.mem_cons.mp hy with h | h
    · exact h ▸ le_refl _
    · simp at h
  | cons z zs ih =>
    intro y hy
    rw [minByKey]
    split
    · next hlt =>
      rcases List.mem_cons.mp hy with h | h
      · subst h
        exact le_of_lt (lt_of_le_of_lt (ih z _ (List.mem_cons_self z zs)) hlt)
      · exact ih z y h
    · next hge =>
      rcases List.mem_cons.mp hy with h | h
      · exact h ▸ ih x _ (List.mem_cons_self x zs)
      · rcases List.mem_cons.mp h with h2 | h2
        · subst h2
          exact le_trans (ih x _ (List.mem_cons_self x zs)) (le_of_not_lt hge)
        · exact ih x y (List.mem_cons_of_mem x h2)

/-- Python `min` keeps the first minimizer: the selected element splits the
list into a strict-greater prefix and a greater-or-equal suffix. -/
theorem minByKey_earliest {α : Type} (f : α → Int) (x : α) (xs : List α) :
    ∃ l1 l2, x :: xs = l1 ++ minByKey f x xs :: l2 ∧
      (∀ y ∈ l1, f (minByKey f x xs) < f y) ∧
      (∀ y ∈ l2, f (minByKey f x xs) ≤ f y) := by
  induction xs generalizing x with
  | nil => exact ⟨[], [], by simp [minByKey], by simp, by simp⟩
  | cons y ys ih =>
    rw [minByKey]
    split
    · next hlt =>
      rcases ih y with ⟨l1, l2, heq, h1, h2⟩
      refine ⟨x :: l1, l2, by rw [List.cons_append, ← heq], ?_, h2⟩
      intro z hz
      rcases List.mem_cons.mp hz with h | h
      · subst h
        exact lt_of_le_of_lt (minByKey_le f y ys _ (List.mem_cons_self y ys)) hlt
      · exact h1 z h
    · next hge =>
      rcases ih x with ⟨l1, l2, heq, h1, h2⟩
      cases l1 with
      | nil =>
        simp only [List.nil_append] at heq
        have hx : minByKey f x ys = x := (List.cons.injEq _ _ _ _ ▸ heq).1.symm
        refine ⟨[], y :: ys, ?_, by simp, ?_⟩
        · simp [hx]
        · intro z hz
          rcases List.mem_cons.mp hz with h | h
          · subst h
            rw [hx]
            exact le_of_not_lt hge
          · rw [hx] at h2 ⊢
            have : ys = l2 := by
              have := heq
              simp only [List.cons.injEq] at this
              exact this.2
            exact h2 z (this ▸ h)
      | cons a l1t =>
        simp only [List.cons_append, List.cons.injEq] at heq
        rcases heq with ⟨hax, hys⟩
        refine ⟨x :: y :: l1t, l2, ?_, ?_, h2⟩
        · simp only [List.cons_append]
          rw [← hys]
        · intro z hz
          have hmx : f (minByKey f x ys) < f x := by
            have := h1 a (List.mem_cons_self a l1t)
            rw [← hax] at this
            exact this
          rcases List.mem_cons.mp hz with h | h
          · exact h ▸ hmx
          · rcases List.mem_cons.mp h with h3 | h3
            · subst h3
              exact lt_of_lt_of_le hmx (le_of_not_lt hge)
            · exact h1 z (List.mem_cons_of_mem a h3)

theorem insertSorted_perm {α : Type} (f : α → Int) (x : α) (l : List α) :
    (insertSorted f x l).Perm (x :: l) := by
  induction l with
  | nil => simp [insertSorted]
  | cons y ys ih =>
    rw [insertSorted]
    split
    · exact List.Perm.refl _
    · exact (List.Perm.cons y ih).trans (List.Perm.swap x y ys)

theorem sortByKey_perm {α : Type} (f : α → Int) (l : List α) :
    (sortByKey f l).Perm l := by
  induction l with
  | nil => simp [sortByKey]
  | cons x xs ih =>
    rw [sortByKey]
    exact (insertSorted_perm f x (sortByKey f xs)).trans (List.Perm.cons x ih)

theorem insertSorted_chain {α : Type} (f : α → Int) (x : α) (l : List α)
    (h : List.Chain' (fun a b => f a ≤ f b) l) :
    List.Chain' (fun a b => f a ≤ f b) (insertSorted f x l) := by
  induction l with
  | nil => simp [insertSorted]
  | cons y ys ih =>
    rw [insertSorted]
    split
    · next hle => exact List.Chain'.cons hle h
    · next hgt =>
      have hyx : f y ≤ f x := le_of_not_le hgt
      have hys : List.Chain' (fun a b => f a ≤ f b) ys := h.tail
      have hins := ih hys
      cases ys with
      | nil => exact List.chain'_cons.mpr ⟨hyx, by simp [insertSorted]⟩
      | cons z zs =>
        rw [insertSorted]
        rw [insertSorted] at hins
        by_cases hle2 : f x ≤ f z
        · rw [if_pos hle2] at hins ⊢
          exact List.chain'_cons.mpr ⟨hyx, hins⟩
        · rw [if_neg hle2] at hins ⊢
          have hyz : f y ≤ f z := (List.chain'_cons.mp h).1
          exact List.chain'_cons.mpr ⟨hyz, hins⟩

theorem sortByKey_chain {α : Type} (f : α → Int) (l : List α) :
    List.Chain' (fun a b => f a ≤ f b) (sortByKey f l) := by
  induction l with
  | nil => simp [sortByKey]
  | cons x xs ih =>
    rw [sortByKey]
    exact insertSorted_chain f x _ ih

/-! ## Merge fill lemmas -/

/-- Specification-side reading of the field-fill rule: the first non-empty
value recorded for key `k` in the priority-ordered key/value stream. -/
def firstNonEmptyFor (k : String) (kvs : FieldMap) : Option Value :=
  (kvs.find? (fun p => p.1 == k && !p.2.isEmptyV)).map (·.2)

theorem foldl_mergeStep_preserves_nonempty (kvs : FieldMap)
    (m : FieldMap) (fs : List String) (k : String) (w : Value)
    (hm : m.lookup k = some w) (hw : w.isEmptyV = false) :
    ((kvs.foldl mergeStep (m, fs)).1).lookup k = some w := by
  induction kvs generalizing m fs with
  | nil => exact hm
  | cons kv rest ih =>
    rw [List.foldl_cons]
    by_cases hkk : kv.1 = k
    · have hstep : mergeStep (m, fs) kv = (m, fs) := by
        unfold mergeStep
        rw [hkk, hm]
        simp [hw]
      rw [hstep]
      exact ih m fs hm
    · have hne : k ≠ kv.1 := fun h => hkk h.symm
      have hpres : ∀ fs2, ((rest.foldl mergeStep (dictUpd m kv.1 kv.2, fs2)).1).lookup k = some w := by
        intro fs2
        exact ih _ fs2 (by rw [lookup_dictUpd, if_neg hne]; exact hm)
      unfold mergeStep
      cases hl : m.lookup kv.1 with
      | none =>
        simp only []
        exact hpres _
      | some u =>
        simp only []
        by_cases hu : u.isEmptyV
        · rw [if_pos hu]
          exact hpres _
        · rw [if_neg hu]
          exact ih m fs hm

theorem foldl_mergeStep_lookup_some (kvs : FieldMap) (m : FieldMap)
    (fs : List String) (k : String) (v : Value)
    (hcur : m.lookup k = none ∨ ∃ c, m.lookup k = some c ∧ c.isEmptyV)
    (hv : firstNonEmptyFor k kvs = some v) :
    ((kvs.foldl mergeStep (m, fs)).1).lookup k = some v := by
  induction kvs generalizing m fs with
  | nil => simp [firstNonEmptyFor, List.find?] at hv
  | cons kv rest ih =>
    rw [List.foldl_cons]
    by_cases hkk : kv.1 = k
    · have hstep : mergeStep (m, fs) kv =
          (dictUpd m kv.1 kv.2,
            if kv.1 ∈ fs then fs else fs ++ [kv.1]) := by
        unfold mergeStep
        rcases hcur with h | ⟨c, hc, hce⟩
        · rw [hkk, h]
        · rw [hkk, hc]
          simp [hce]
      rw [hstep]
      by_cases hne : kv.2.isEmptyV
      · have hvrest : firstNonEmptyFor k rest = some v := by
          rw [firstNonEmptyFor] at hv ⊢
          rw [List.find?] at hv
          have : (kv.1 == k && !kv.2.isEmptyV) = false := by
            simp [hne]
          rw [this] at hv
          exact hv
        exact ih _ _
          (Or.inr ⟨kv.2, by rw [lookup_dictUpd, if_pos hkk.symm], hne⟩)
          hvrest
      · have hvv : v = kv.2 := by
          rw [firstNonEmptyFor, List.find?] at hv
          have : (kv.1 == k && !kv.2.isEmptyV) = true := by
            simp [hkk, hne]
          rw [this] at hv
          simp at hv
          exact hv.symm
        subst hvv
        exact foldl_mergeStep_preserves_nonempty rest _ _ k kv.2
          (by rw [lookup_dictUpd, if_pos hkk.symm]) (by simp [hne])
    · have hvrest : firstNonEmptyFor k rest = some v := by
        rw [firstNonEmptyFor] at hv ⊢
        rw [List.find?] at hv
        have : (kv.1 == k && !kv.2.isEmptyV) = false := by
          simp [hkk]
        rw [this] at hv
        exact hv
      have hne2 : k ≠ kv.1 := fun h => hkk h.symm
      have hupd : ∀ fs2, ((rest.foldl mergeStep (dictUpd m kv.1 kv.2, fs2)).1).lookup k = some v := by
        intro fs2
        refine ih _ fs2 ?_ hvrest
        rw [lookup_dictUpd, if_neg hne2]
        exact hcur
      unfold mergeStep
      cases hl : m.lookup kv.1 with
      | none =>
        simp only []
        exact hupd _
      | some u =>
        simp only []
        by_cases hu : u.isEmptyV
        · rw [if_pos hu]
          exact hupd _
        · rw [if_neg hu]
          exact ih m fs hcur hvrest

theorem foldl_foldl_eq_foldl_join (rs : List TaskSearchResult)
    (acc : FieldMap × List String) :
    rs.foldl (fun a r => r.task_data.foldl mergeStep a) acc =
      ((rs.map (·.task_data)).flatten).foldl mergeStep acc := by
  induction rs generalizing acc with
  | nil => rfl
  | cons r rest ih =>
    rw [List.foldl_cons, List.map_cons, List.flatten_cons, List.foldl_append]
    exact ih _

/-! ## Concrete fixtures used by witnesses and counterexamples -/

/-- Tracker A, priority 0. -/
def trkCfgA : TaskTrackerConfig := { name := "A", type := .jira, priority := 0 }

/-- Tracker B, priority 5. -/
def trkCfgB : TaskTrackerConfig := { name := "B", type := .onec, priority := 5 }

/-- Two-tracker configuration with the default `priority` strategy. -/
def cfgPriority : MultiTrackerConfig := { trackers := [trkCfgA, trkCfgB] }

/-- Two-tracker configuration with the `first_found` strategy. -/
def cfgFirstFound : MultiTrackerConfig :=
  { trackers := [trkCfgA, trkCfgB], merge_strategy := "first_found" }

/-- A found result from tracker A with an empty `owner` field. -/
def resA : TaskSearchResult :=
  { tracker_name := "A", tracker_type := .jira,
    task_data := [("status", .str "Open"), ("owner", .str "")],
    found := true }

/-- A found result from tracker B with `owner = bob`. -/
def resB : TaskSearchResult :=
  { tracker_name := "B", tracker_type := .onec,
    task_data := [("status", .str "Open"), ("owner", .str "bob")],
    found := true }

/-! ## Claim theorems -/

/-- C5 (code bug): the configuration carries `timeout_seconds` with default
30, but `_search_tasks_parallel` never applies it — `as_completed` is called
without a timeout and `timeout_seconds` is read nowhere in the service.  A
tracker whose batched query takes 9999999 ms (far beyond the 30 s bound the
claim promises) still contributes its real `found = true` results instead of
the synthesized `found = false` results the claim requires. -/
theorem c5_timeout_not_enforced :
    ({ trackers := [] } : MultiTrackerConfig).timeout_seconds = 30 ∧
    (30 * 1000 : Nat) < 9999999 ∧
    (searchTasksParallel
        [{ name := "SLOW", type := .jira,
           outcome := .ok [[("task_number", .str "T-1")]],
           elapsed_ms := 9999999 }] ["T-1"]).lookup "T-1" =
      some [{ tracker_name := "SLOW", tracker_type := .jira,
              task_data := [("task_number", .str "T-1")], found := true,
              response_time_ms := some 9999999 }] :=
  ⟨rfl, by decide, rfl⟩

/-- C6 (code bug): with `deduplication_enabled = False`,
`get_task_details` returns the raw `MultiTaskResult` bundles — including a
bundle for a task id no tracker found — instead of the canonical field-map
list its own signature (`-> List[Dict[str, Any]]`) promises.  The same
input with deduplication enabled yields the empty canonical list the claim
describes. -/
theorem c6_dedup_flag_divergence :
    getTaskDetails { trackers := [trkCfgA], deduplication_enabled := false }
        [{ name := "A", type := .jira, outcome := .ok [], elapsed_ms := 3 }]
        ["T-1"] =
      [.bundle
        { task_number := "T-1",
          results := [{ tracker_name := "A", tracker_type := .jira,
                        task_data := [], found := false,
                        response_time_ms := some 3 }],
          primary_result := none, merged_data := none,
          found_in_trackers := [] }] ∧
    getTaskDetails { trackers := [trkCfgA], deduplication_enabled := true }
        [{ name := "A", type := .jira, outcome := .ok [], elapsed_ms := 3 }]
        ["T-1"] = [] :=
  ⟨rfl, rfl⟩

/-- The single result `_search_tasks_in_tracker` records for task id `n`:
found with the first matching record, not-found, or the synthesized error
result, depending on the backend outcome. -/
def trackerResultAt (trk : TrackerEntry) (n : String) : TaskSearchResult :=
  match trk.outcome with
  | .ok task_details =>
    match task_details.find?
        (fun t => t.lookup "task_number" == some (.str n)) with
    | some td =>
      { tracker_name := trk.name, tracker_type := trk.type,
        task_data := td, found := true,
        response_time_ms := some trk.elapsed_ms }
    | none =>
      { tracker_name := trk.name, tracker_type := trk.type,
        task_data := [], found := false,
        response_time_ms := some trk.elapsed_ms }
  | .error e =>
    { tracker_name := trk.name, tracker_type := trk.type,
      task_data := [], found := false, error := some e,
      response_time_ms := some trk.elapsed_ms }

theorem searchTasksInTracker_eq (trk : TrackerEntry) (tns : List String) :
    searchTasksInTracker trk.name trk.type trk.outcome trk.elapsed_ms tns =
      (dedupFirst tns).map (fun n => (n, trackerResultAt trk n)) := by
  cases htrk : trk.outcome with
  | ok td =>
    simp only [searchTasksInTracker]
    apply List.map_congr_left
    intro n _
    simp only [trackerResultAt, htrk]
    cases td.find? (fun t => t.lookup "task_number" == some (.str n)) <;> rfl
  | error e =>
    simp only [searchTasksInTracker]
    apply List.map_congr_left
    intro n _
    simp only [trackerResultAt, htrk]

theorem trackerResultAt_name (trk : TrackerEntry) (n : String) :
    (trackerResultAt trk n).tracker_name = trk.name := by
  unfold trackerResultAt
  split
  · split <;> rfl
  · rfl

theorem filterMap_some {α β : Type} (h : α → β) (l : List α) :
    l.filterMap (fun a => some (h a)) = l.map h := by
  induction l with
  | nil => rfl
  | cons x xs ih => simp [List.filterMap_cons, ih]

theorem countP_eq_one_of_nodup_mem {α β : Type} [BEq β] [LawfulBEq β]
    (l : List α) (f : α → β) (a : α)
    (hnodup : (l.map f).Nodup) (ha : a ∈ l) :
    l.countP (fun x => f x == f a) = 1 := by
  induction l with
  | nil => simp at ha
  | cons x xs ih =>
    rw [List.map_cons, List.nodup_cons] at hnodup
    rw [List.countP_cons]
    rcases List.mem_cons.mp ha with h | h
    · subst h
      have hzero : xs.countP (fun y => f y == f a) = 0 := by
        rw [List.countP_eq_zero]
        intro b hb hfb
        exact hnodup.1 (List.mem_map.mpr ⟨b, hb, eq_of_beq hfb⟩)
      simp [hzero]
    · have hhead : (f x == f a) = false := by
        rw [beq_eq_false_iff_ne]
        intro hfe
        exact hnodup.1 (hfe ▸ List.mem_map.mpr ⟨a, h, rfl⟩)
      rw [ih hnodup.2 h, hhead]
      simp

/-- C1: for every requested task id and every enabled, successfully
constructed tracker (arbitrary completion order, pairwise-distinct tracker
names as guaranteed by the name-keyed `tracker_services` dict), the fan-out
result map holds exactly one `TaskSearchResult` for the (task id, tracker)
pair; and when the tracker's batched query raised, that result is the
synthesized `found = false` record carrying the exception message — for
every requested task id of that tracker. -/
theorem c1_fanout_completeness (order : List TrackerEntry)
    (tns : List String) (trk : TrackerEntry) (n : String)
    (hn : n ∈ tns) (htrk : trk ∈ order)
    (hnames : (order.map (·.name)).Nodup) :
    ∃ rs, (searchTasksParallel order tns).lookup n = some rs ∧
      rs.countP (fun r => r.tracker_name == trk.name) = 1 ∧
      (∀ e, trk.outcome = .error e →
        ∀ r ∈ rs, r.tracker_name = trk.name →
          r.found = false ∧ r.error = some e) := by
  have hmem : n ∈ dedupFirst tns := (mem_dedupFirst tns n).mpr hn
  have hlook :
      (searchTasksParallel order tns).lookup n =
        some (order.filterMap (fun t =>
          (searchTasksInTracker t.name t.type t.outcome t.elapsed_ms
            tns).lookup n)) := by
    unfold searchTasksParallel
    exact lookup_map_self (dedupFirst tns) _ n hmem
  have hinner : ∀ t : TrackerEntry,
      (searchTasksInTracker t.name t.type t.outcome t.elapsed_ms
        tns).lookup n = some (trackerResultAt t n) := by
    intro t
    rw [searchTasksInTracker_eq]
    exact lookup_map_self (dedupFirst tns) _ n hmem
  have hrs : order.filterMap (fun t =>
      (searchTasksInTracker t.name t.type t.outcome t.elapsed_ms
        tns).lookup n) = order.map (fun t => trackerResultAt t n) := by
    have : (fun t : TrackerEntry =>
        (searchTasksInTracker t.name t.type t.outcome t.elapsed_ms
          tns).lookup n) =
        fun t => some (trackerResultAt t n) := funext hinner
    rw [this]
    exact filterMap_some _ order
  refine ⟨order.map (fun t => trackerResultAt t n), by rw [hlook, hrs], ?_, ?_⟩
  · rw [List.countP_map]
    have hcongr : order.countP
        ((fun r : TaskSearchResult => r.tracker_name == trk.name) ∘
          (fun t => trackerResultAt t n)) =
        order.countP (fun t => t.name == trk.name) := by
      apply List.countP_congr
      intro t _
      simp only [Function.comp_apply, trackerResultAt_name]
    rw [hcongr]
    exact countP_eq_one_of_nodup_mem order (·.name) trk hnames htrk
  · intro e he r hr hname
    rcases List.mem_map.mp hr with ⟨t, ht, hrt⟩
    have htt : t = trk := by
      have hname2 : t.name = trk.name := by
        rw [← hrt, trackerResultAt_name] at hname
        exact hname
      exact List.inj_on_of_nodup_map hnames ht htrk hname2
    subst htt
    rw [← hrt]
    unfold trackerResultAt
    rw [he]
    exact ⟨rfl, rfl⟩

/-- Witness for C1 at a concrete input: two trackers, one of which raises,
one requested task id. -/
theorem c1_fanout_completeness_witness :
    ∃ rs, (searchTasksParallel
        [{ name := "A", type := .jira,
           outcome := .ok [[("task_number", .str "T-1")]], elapsed_ms := 4 },
         { name := "E", type := .onec, outcome := .error "boom",
           elapsed_ms := 6 }] ["T-1"]).lookup "T-1" = some rs ∧
      rs.countP (fun r => r.tracker_name == "E") = 1 ∧
      (∀ e, (Except.error (α := List FieldMap) "boom" : Except String (List FieldMap)) = .error e →
        ∀ r ∈ rs, r.tracker_name = "E" →
          r.found = false ∧ r.error = some e) :=
  c1_fanout_completeness
    [{ name := "A", type := .jira,
       outcome := .ok [[("task_number", .str "T-1")]], elapsed_ms := 4 },
     { name := "E", type := .onec, outcome := .error "boom",
       elapsed_ms := 6 }] ["T-1"]
    { name := "E", type := .onec, outcome := .error "boom", elapsed_ms := 6 }
    "T-1" (by decide) (by decide) (by decide)

/-- C2 counterexample: primary selection is not a pure function of the set
of results.  Under the `first_found` strategy the two orderings of the same
two found results — a permutation modelling the two possible completion
orders — select different primary results. -/
theorem c2_order_dependence_counterexample :
    List.Perm [resA, resB] [resB, resA] ∧
    determinePrimaryResult cfgFirstFound [resA, resB] = some resA ∧
    determinePrimaryResult cfgFirstFound [resB, resA] = some resB ∧
    resA ≠ resB :=
  ⟨List.Perm.swap resB resA [], by decide, by decide, by decide⟩

/-- C2 amended: primary selection is order-independent only for the
`priority` strategy and only when the found results carry pairwise-distinct
effective tracker priorities; the `first_found` strategy (and a priority
tie) selects by position in the arrival-ordered list.  Under those
hypotheses the `priority` selection is invariant under any permutation of
the results. -/
theorem c2_priority_order_independent (cfg : MultiTrackerConfig)
    (hstrat : cfg.merge_strategy = "priority")
    (l l' : List TaskSearchResult) (hperm : l.Perm l')
    (hdist : (l.filter (·.found)).Pairwise
      (fun a b => trackerPriority cfg.trackers a.tracker_name ≠
        trackerPriority cfg.trackers b.tracker_name)) :
    determinePrimaryResult cfg l = determinePrimaryResult cfg l' := by
  have hpf : (l.filter (·.found)).Perm (l'.filter (·.found)) :=
    hperm.filter _
  cases hfl : l.filter (·.found) with
  | nil =>
    have hfl' : l'.filter (·.found) = [] := by
      rw [hfl] at hpf
      exact hpf.symm.eq_nil
    unfold determinePrimaryResult
    rw [hfl, hfl']
  | cons r rs =>
    cases hfl' : l'.filter (·.found) with
    | nil =>
      rw [hfl, hfl'] at hpf
      exact absurd hpf.eq_nil (by simp)
    | cons r2 rs2 =>
      rw [hfl, hfl'] at hpf
      rw [hfl] at hdist
      have hsel1 : determinePrimaryResult cfg l =
          some (minByKey
            (fun x => trackerPriority cfg.trackers x.tracker_name) r rs) := by
        unfold determinePrimaryResult
        rw [hfl, hstrat]
        rfl
      have hsel2 : determinePrimaryResult cfg l' =
          some (minByKey
            (fun x => trackerPriority cfg.trackers x.tracker_name) r2 rs2) := by
        unfold determinePrimaryResult
        rw [hfl', hstrat]
        rfl
      rw [hsel1, hsel2]
      have hsym : Symmetric (fun a b : TaskSearchResult =>
          trackerPriority cfg.trackers a.tracker_name ≠
            trackerPriority cfg.trackers b.tracker_name) :=
        fun x y h he => h he.symm
      have hforall := List.Pairwise.forall hsym hdist
      have hmem1 : minByKey
          (fun x => trackerPriority cfg.trackers x.tracker_name) r rs ∈
            r :: rs :=
        minByKey_mem _ r rs
      have hmem2 : minByKey
          (fun x => trackerPriority cfg.trackers x.tracker_name) r2 rs2 ∈
            r :: rs :=
        hpf.mem_iff.mpr (minByKey_mem _ r2 rs2)
      by_cases hmm : minByKey
          (fun x => trackerPriority cfg.trackers x.tracker_name) r rs =
            minByKey
              (fun x => trackerPriority cfg.trackers x.tracker_name) r2 rs2
      · rw [hmm]
      · exfalso
        have hle1 := minByKey_le
          (fun x => trackerPriority cfg.trackers x.tracker_name) r rs _ hmem2
        have hle2 := minByKey_le
          (fun x => trackerPriority cfg.trackers x.tracker_name) r2 rs2 _
          (hpf.mem_iff.mp hmem1)
        exact hforall hmem1 hmem2 hmm (le_antisymm hle1 hle2)

/-- Witness for the amended C2 at a concrete input: trackers A (priority 0)
and B (priority 5), both found, in the two possible completion orders. -/
theorem c2_priority_order_independent_witness :
    cfgPriority.merge_strategy = "priority" ∧
    determinePrimaryResult cfgPriority [resA, resB] =
      determinePrimaryResult cfgPriority [resB, resA] :=
  ⟨rfl, c2_priority_order_independent cfgPriority rfl [resA, resB]
    [resB, resA] (List.Perm.swap resB resA []) (by decide)⟩

/-- C3 counterexample: two concrete refutations of the claimed selection
rule.  First, a tracker absent from the priority map gets default 999, not
+infinity: with tracker A configured at priority 1000 and tracker B
unconfigured, the `priority` strategy selects B's result, so a configured
tracker does not always beat an unconfigured one.  Second, a priority tie
is broken by position in the arrival-ordered results list, not by
declaration order: with A and B both configured at priority 0 and B's
result arriving first, B is selected although A is declared first. -/
theorem c3_priority_selection_counterexample :
    determinePrimaryResult
        { trackers := [{ name := "A", type := .jira, priority := 1000 }] }
        [resA, resB] = some resB ∧
    trackerPriority [{ name := "A", type := .jira, priority := 1000 }] "B" = 999 ∧
    determinePrimaryResult
        { trackers := [{ name := "A", type := .jira, priority := 0 },
                       { name := "B", type := .onec, priority := 0 }] }
        [resB, resA] = some resB :=
  ⟨by decide, by decide, by decide⟩

/-- C3 amended: under the `priority` strategy with a non-empty found list,
the selected primary result is the earliest element of the found-results
list (arrival order, not declaration order) whose effective tracker
priority is minimal, where a tracker absent from the priority map gets the
default 999 (not +infinity): the found list splits into a prefix of
strictly larger priorities, the selected result, and a suffix of larger or
equal priorities. -/
theorem c3_priority_selection_amended (cfg : MultiTrackerConfig)
    (hstrat : cfg.merge_strategy = "priority")
    (results : List TaskSearchResult) (r : TaskSearchResult)
    (rs : List TaskSearchResult)
    (hf : results.filter (·.found) = r :: rs) :
    ∃ m l1 l2, determinePrimaryResult cfg results = some m ∧
      r :: rs = l1 ++ m :: l2 ∧
      (∀ y ∈ l1, trackerPriority cfg.trackers m.tracker_name <
        trackerPriority cfg.trackers y.tracker_name) ∧
      (∀ y ∈ l2, trackerPriority cfg.trackers m.tracker_name ≤
        trackerPriority cfg.trackers y.tracker_name) ∧
      (∀ nm, (∀ t ∈ cfg.trackers, t.name ≠ nm) →
        trackerPriority cfg.trackers nm = 999) := by
  have hsel : determinePrimaryResult cfg results =
      some (minByKey
        (fun x => trackerPriority cfg.trackers x.tracker_name) r rs) := by
    unfold determinePrimaryResult
    rw [hf, hstrat]
    rfl
  rcases minByKey_earliest
      (fun x => trackerPriority cfg.trackers x.tracker_name) r rs with
    ⟨l1, l2, heq, h1, h2⟩
  refine ⟨_, l1, l2, hsel, heq, h1, h2, ?_⟩
  intro nm hnm
  unfold trackerPriority
  have hfind : cfg.trackers.reverse.find? (fun t => t.name = nm) = none := by
    rw [List.find?_eq_none]
    intro t ht
    simp only [decide_eq_true_eq]
    exact hnm t (List.mem_reverse.mp ht)
  rw [hfind]

/-- Witness for the amended C3 at a concrete input: trackers A (priority 0,
declared first) and B (priority 5), results arriving as B then A. -/
theorem c3_priority_selection_amended_witness :
    ∃ m l1 l2, determinePrimaryResult cfgPriority [resB, resA] = some m ∧
      resB :: [resA] = l1 ++ m :: l2 ∧
      (∀ y ∈ l1, trackerPriority cfgPriority.trackers m.tracker_name <
        trackerPriority cfgPriority.trackers y.tracker_name) ∧
      (∀ y ∈ l2, trackerPriority cfgPriority.trackers m.tracker_name ≤
        trackerPriority cfgPriority.trackers y.tracker_name) ∧
      (∀ nm, (∀ t ∈ cfgPriority.trackers, t.name ≠ nm) →
        trackerPriority cfgPriority.trackers nm = 999) :=
  c3_priority_selection_amended cfgPriority rfl [resB, resA] resB [resA]
    (by decide)

/-- The priority-ordered stream of key/value pairs `_merge_task_data`
iterates: the task field maps of the found results, stably sorted by
ascending effective tracker priority, concatenated. -/
def priorityFieldStream (cfg : MultiTrackerConfig)
    (results : List TaskSearchResult) : FieldMap :=
  ((sortByKey (fun r => trackerPriority cfg.trackers r.tracker_name)
      (results.filter (·.found))).map (·.task_data)).flatten

/-- C4: with at least two found results, field-level merge iterates the
found results stably sorted by ascending effective tracker priority (the
sorted list is a permutation of the found results and its priorities are
ascending), and for every non-reserved field whose priority-ordered stream
contains a non-empty value, the merged map holds the first such value — a
later tracker's non-empty value fills a field an earlier tracker left
empty; the `_trackers` provenance key records the names of all found
(contributing) trackers. -/
theorem c4_merge_field_fill (cfg : MultiTrackerConfig)
    (results : List TaskSearchResult) (k : String) (v : Value)
    (h2 : 2 ≤ (results.filter (·.found)).length)
    (hk1 : k ≠ "_trackers") (hk2 : k ≠ "_merged_fields")
    (hv : firstNonEmptyFor k (priorityFieldStream cfg results) = some v) :
    (mergeTaskData cfg results).lookup k = some v ∧
    (mergeTaskData cfg results).lookup "_trackers" =
      some (.strList ((results.filter (·.found)).map (·.tracker_name))) ∧
    (sortByKey (fun r => trackerPriority cfg.trackers r.tracker_name)
        (results.filter (·.found))).Perm (results.filter (·.found)) ∧
    List.Chain' (fun a b => trackerPriority cfg.trackers a.tracker_name ≤
        trackerPriority cfg.trackers b.tracker_name)
      (sortByKey (fun r => trackerPriority cfg.trackers r.tracker_name)
        (results.filter (·.found))) := by
  cases hfl : results.filter (·.found) with
  | nil => rw [hfl] at h2; simp at h2
  | cons a t1 =>
    cases t1 with
    | nil => rw [hfl] at h2; simp at h2
    | cons b t =>
      have hmerge : mergeTaskData cfg results =
          dictUpd
            (dictUpd (mergeFold cfg (a :: b :: t)).1 "_trackers"
              (.strList ((a :: b :: t).map (·.tracker_name))))
            "_merged_fields" (.strList (mergeFold cfg (a :: b :: t)).2) := by
        unfold mergeTaskData
        rw [hfl]
      have hstream : priorityFieldStream cfg results =
          ((sortByKey (fun r => trackerPriority cfg.trackers r.tracker_name)
            (a :: b :: t)).map (·.task_data)).flatten := by
        unfold priorityFieldStream
        rw [hfl]
      refine ⟨?_, ?_, ?_, ?_⟩
      · rw [hmerge, lookup_dictUpd, if_neg hk2, lookup_dictUpd, if_neg hk1]
        unfold mergeFold
        rw [foldl_foldl_eq_foldl_join]
        apply foldl_mergeStep_lookup_some
        · exact Or.inl rfl
        · rw [hstream] at hv
          exact hv
      · rw [hmerge, lookup_dictUpd,
          if_neg (by decide : ("_trackers" : String) ≠ "_merged_fields"),
          lookup_dictUpd, if_pos rfl]
      · exact sortByKey_perm _ _
      · exact sortByKey_chain _ _

/-- Witness for C4 at the spec's own example: A(priority 0, owner empty)
and B(priority 1 < 5, owner bob) merge to owner = bob with B recorded among
the contributing trackers. -/
theorem c4_merge_field_fill_witness :
    2 ≤ (([resA, resB].filter (·.found)).length) ∧
    (mergeTaskData cfgPriority [resA, resB]).lookup "owner" =
      some (.str "bob") ∧
    (mergeTaskData cfgPriority [resA, resB]).lookup "_trackers" =
      some (.strList (([resA, resB].filter (·.found)).map (·.tracker_name))) :=
  ⟨by decide,
   (c4_merge_field_fill cfgPriority [resA, resB] "owner" (.str "bob")
     (by decide) (by decide) (by decide) (by decide)).1,
   (c4_merge_field_fill cfgPriority [resA, resB] "owner" (.str "bob")
     (by decide) (by decide) (by decide) (by decide)).2.1⟩

/-- C7 counterexample: `has_changes` is not equivalent to one of the three
lists being non-empty.  When the GitLab file diff reports a change but both
snapshots have the same (here: empty) content, `analyze_metadata_changes`
returns `has_changes = True` with empty added/removed/modified lists — and
this input is also a diff of a snapshot against itself, refuting the
`diff(X, X) → has_changes = false` half of the claim. -/
theorem c7_has_changes_counterexample :
    analyzeMetadataChanges (fun _ => [])
        { has_changes := true, since_commit_id := "c1",
          current_commit_id := "c2" } (fun _ => "") =
      { has_changes := true, added := [], removed := [], modified := [] } :=
  rfl

/-- C8 counterexample: the degraded regex parse path does not use the same
identity rule as the well-formed path.  For an element with only a `type`
attribute the well-formed path derives `Widget@string` (the `type` step of
the rule) while the regex path derives `Widget@0` (its positional
fallback; it never consults `type` and never uses the path#text form). -/
theorem c8_identity_rule_counterexample :
    getElementIdentifier
        { tag := "Widget", attrib := [("type", "string")],
          text := some "txt" } = "Widget@string" ∧
    regexElementId 0
        { tag := "Widget", attrs := [("type", "string")],
          content := "txt" } = "Widget@0" ∧
    (parseXmlWithRegex
        [{ tag := "Widget", attrs := [("type", "string")],
           content := "txt" }]).map (·.1) = ["Widget@0"] ∧
    ("Widget@string" : String) ≠ "Widget@0" :=
  ⟨rfl, rfl, rfl, by decide⟩

/-- C10: when more than one tracker found the task, the merged map carries
the two reserved provenance keys — `_trackers` holding the names of all
trackers that found the task and `_merged_fields` holding the recorded
merged field names — inserted alongside the task's own fields; when exactly
one tracker found the task, that tracker's field map is returned unchanged
(in particular with neither provenance key, since neither is inserted). -/
theorem c10_provenance_keys (cfg : MultiTrackerConfig)
    (results : List TaskSearchResult) :
    (∀ r, results.filter (·.found) = [r] →
      mergeTaskData cfg results = r.task_data) ∧
    (2 ≤ (results.filter (·.found)).length →
      (mergeTaskData cfg results).lookup "_trackers" =
        some (.strList ((results.filter (·.found)).map (·.tracker_name))) ∧
      (mergeTaskData cfg results).lookup "_merged_fields" =
        some (.strList (mergeTaskDataFields cfg results))) := by
  constructor
  · intro r hr
    unfold mergeTaskData
    rw [hr]
  · intro h2
    cases hfl : results.filter (·.found) with
    | nil => rw [hfl] at h2; simp at h2
    | cons a t1 =>
      cases t1 with
      | nil => rw [hfl] at h2; simp at h2
      | cons b t =>
        have hmerge : mergeTaskData cfg results =
            dictUpd
              (dictUpd (mergeFold cfg (a :: b :: t)).1 "_trackers"
                (.strList ((a :: b :: t).map (·.tracker_name))))
              "_merged_fields"
              (.strList (mergeFold cfg (a :: b :: t)).2) := by
          unfold mergeTaskData
          rw [hfl]
        have hfields : mergeTaskDataFields cfg results =
            (mergeFold cfg (a :: b :: t)).2 := by
          unfold mergeTaskDataFields
          rw [hfl]
        constructor
        · rw [hmerge, lookup_dictUpd,
            if_neg (by decide : ("_trackers" : String) ≠ "_merged_fields"),
            lookup_dictUpd, if_pos rfl]
        · rw [hmerge, hfields, lookup_dictUpd, if_pos rfl]

/-- Witness for C10: a single-found task returns the raw field map; a
two-found task carries both provenance keys. -/
theorem c10_provenance_keys_witness :
    mergeTaskData cfgPriority [resA] = resA.task_data ∧
    ((mergeTaskData cfgPriority [resA, resB]).lookup "_trackers" =
      some (.strList (([resA, resB].filter (·.found)).map (·.tracker_name))) ∧
     (mergeTaskData cfgPriority [resA, resB]).lookup "_merged_fields" =
      some (.strList (mergeTaskDataFields cfgPriority [resA, resB]))) :=
  ⟨(c10_provenance_keys cfgPriority [resA]).1 resA (by decide),
   (c10_provenance_keys cfgPriority [resA, resB]).2 (by decide)⟩

theorem analyzeXmlChanges_self (m : List (String × ElemData))
    (hnodup : (m.map (·.1)).Nodup) :
    analyzeXmlChanges m m =
      { added := [], removed := [], modified := [] } := by
  unfold analyzeXmlChanges
  simp only [ChangeSet.mk.injEq]
  refine ⟨?_, ?_, ?_⟩
  · rw [List.map_eq_nil_iff, List.filter_eq_nil_iff]
    intro p hp
    have hsome := lookup_isSome_of_mem (m := m) (k := p.1) (d := p.2) hp
    rw [Option.isNone_iff_eq_none]
    intro hnone
    rw [hnone] at hsome
    simp at hsome
  · rw [List.map_eq_nil_iff, List.filter_eq_nil_iff]
    intro p hp
    have hsome := lookup_isSome_of_mem (m := m) (k := p.1) (d := p.2) hp
    rw [Option.isNone_iff_eq_none]
    intro hnone
    rw [hnone] at hsome
    simp at hsome
  · rw [List.filterMap_eq_nil_iff]
    intro p hp
    have hlk : m.lookup p.1 = some p.2 :=
      lookup_eq_some_of_mem_nodup hnodup hp
    rw [hlk]
    simp

/-- C7 amended: diffing equal contents yields empty added/removed/modified
lists, and `has_changes = false` (no file-level change) comes with empty
lists — but `has_changes` itself reflects the GitLab file diff, not the
element lists, so it can be true while all three lists are empty and the
claimed equivalence fails in that direction. -/
theorem c7_diff_self_amended (parse : String → List (String × ElemData))
    (fc : FileChanges) (contentAt : String → String)
    (hnodup : ∀ s, ((parse s).map (·.1)).Nodup) :
    (fc.has_changes = false →
      analyzeMetadataChanges parse fc contentAt =
        { has_changes := false, added := [], removed := [],
          modified := [] }) ∧
    (contentAt fc.since_commit_id = contentAt fc.current_commit_id →
      (analyzeMetadataChanges parse fc contentAt).added = [] ∧
      (analyzeMetadataChanges parse fc contentAt).removed = [] ∧
      (analyzeMetadataChanges parse fc contentAt).modified = []) := by
  constructor
  · intro h
    unfold analyzeMetadataChanges
    rw [h]
    rfl
  · intro hc
    cases hhc : fc.has_changes with
    | false =>
      unfold analyzeMetadataChanges
      rw [hhc]
      exact ⟨rfl, rfl, rfl⟩
    | true =>
      have hm : analyzeMetadataChanges parse fc contentAt =
          { has_changes := true
            added := (analyzeXmlChanges
              (if contentAt fc.since_commit_id = "" then []
               else parse (contentAt fc.since_commit_id))
              (if contentAt fc.since_commit_id = "" then []
               else parse (contentAt fc.since_commit_id))).added
            removed := (analyzeXmlChanges
              (if contentAt fc.since_commit_id = "" then []
               else parse (contentAt fc.since_commit_id))
              (if contentAt fc.since_commit_id = "" then []
               else parse (contentAt fc.since_commit_id))).removed
            modified := (analyzeXmlChanges
              (if contentAt fc.since_commit_id = "" then []
               else parse (contentAt fc.since_commit_id))
              (if contentAt fc.since_commit_id = "" then []
               else parse (contentAt fc.since_commit_id))).modified } := by
        unfold analyzeMetadataChanges
        rw [hhc, ← hc]
        rfl
      rw [hm]
      by_cases hemp : contentAt fc.since_commit_id = ""
      · rw [if_pos hemp, analyzeXmlChanges_self [] (by simp)]
        exact ⟨rfl, rfl, rfl⟩
      · rw [if_neg hemp, analyzeXmlChanges_self _
          (hnodup (contentAt fc.since_commit_id))]
        exact ⟨rfl, rfl, rfl⟩

/-- A sample parsed element used by the metadata witnesses. -/
def elemK : ElemData :=
  { id := "k", tag := "Catalog", attributes := [], text := "",
    children_count := 0, path := "Catalog" }

/-- A sample parse function: every snapshot parses to the single element
`elemK` under key `k`. -/
def parseK : String → List (String × ElemData) := fun _ => [("k", elemK)]

/-- A sample file-level change record. -/
def fcK : FileChanges :=
  { has_changes := true, since_commit_id := "a", current_commit_id := "b" }

/-- A sample snapshot provider giving every commit the same content. -/
def contentC : String → String := fun _ => "c"

/-- Witness for the amended C7: a file-level change whose two snapshots
have equal content diffs to empty element lists. -/
theorem c7_diff_self_amended_witness :
    (fcK.has_changes = false →
      analyzeMetadataChanges parseK fcK contentC =
        { has_changes := false, added := [], removed := [],
          modified := [] }) ∧
    (contentC fcK.since_commit_id = contentC fcK.current_commit_id →
      (analyzeMetadataChanges parseK fcK contentC).added = [] ∧
      (analyzeMetadataChanges parseK fcK contentC).removed = [] ∧
      (analyzeMetadataChanges parseK fcK contentC).modified = []) :=
  c7_diff_self_amended parseK fcK contentC
    (fun _ => by
      show ([("k", elemK)].map (·.1)).Nodup
      decide)

/-- C8 amended: the two parse paths agree on the identity key exactly when
the element carries an `id` or `name` attribute (both derive `tag@id`,
else `tag@name`); below that they diverge — the well-formed path goes on to
`type` and then structural-path#text, the regex path to `tag@index` — and
each path is a pure function of its input, so re-parsing unchanged content
yields identical keys on either single path. -/
theorem c8_identity_rule_amended (tag : String)
    (attribs : List (String × String)) (text : Option String)
    (content : String) (i : Nat)
    (h : (attribs.lookup "id").isSome ∨ (attribs.lookup "name").isSome) :
    getElementIdentifier { tag := tag, attrib := attribs, text := text } =
      regexElementId i
        { tag := tag, attrs := attribs, content := content } := by
  unfold getElementIdentifier regexElementId
  cases hid : attribs.lookup "id" with
  | some v => rfl
  | none =>
    cases hname : attribs.lookup "name" with
    | some v => rfl
    | none =>
      rcases h with h | h
      · rw [hid] at h
        simp at h
      · rw [hname] at h
        simp at h

/-- Witness for the amended C8: an element identified by its `name`
attribute gets the same key `Catalog@Catalog1` on both parse paths. -/
theorem c8_identity_rule_amended_witness :
    ((([("name", "Catalog1")] : List (String × String)).lookup "id").isSome ∨
      (([("name", "Catalog1")] : List (String × String)).lookup
        "name").isSome) ∧
    getElementIdentifier
        { tag := "Catalog", attrib := [("name", "Catalog1")],
          text := none } =
      regexElementId 7
        { tag := "Catalog", attrs := [("name", "Catalog1")],
          content := "" } :=
  ⟨Or.inr (by decide),
   c8_identity_rule_amended "Catalog" [("name", "Catalog1")] none "" 7
     (Or.inr (by decide))⟩

/-- C9: classification is disjoint by identity.  Under the parse invariant
that every stored element's `id` field equals its map key, no identity
appears in two of the added / removed / modified classifications: added
requires the identity absent from `old`, removed requires it present in
`old` and absent from `new`, modified requires it present in both. -/
theorem c9_classification_disjoint
    (old_elements new_elements : List (String × ElemData))
    (hold : ∀ p ∈ old_elements, p.2.id = p.1)
    (hnew : ∀ p ∈ new_elements, p.2.id = p.1) (s : String) :
    ¬(s ∈ (analyzeXmlChanges old_elements new_elements).added.map (·.id) ∧
      s ∈ (analyzeXmlChanges old_elements new_elements).removed.map
        (·.id)) ∧
    ¬(s ∈ (analyzeXmlChanges old_elements new_elements).added.map (·.id) ∧
      s ∈ (analyzeXmlChanges old_elements new_elements).modified.map
        (·.id)) ∧
    ¬(s ∈ (analyzeXmlChanges old_elements new_elements).removed.map
        (·.id) ∧
      s ∈ (analyzeXmlChanges old_elements new_elements).modified.map
        (·.id)) := by
  have hA : s ∈ (analyzeXmlChanges old_elements new_elements).added.map
      (·.id) → old_elements.lookup s = none := by
    intro hs
    rcases List.mem_map.mp hs with ⟨d, hd, hds⟩
    unfold analyzeXmlChanges at hd
    simp only at hd
    rcases List.mem_map.mp hd with ⟨p, hpf, hpd⟩
    rcases List.mem_filter.mp hpf with ⟨hpm, hpcond⟩
    have hkey : p.1 = s := by
      rw [← hnew p hpm, hpd, hds]
    rw [← hkey]
    exact Option.isNone_iff_eq_none.mp (by simpa using hpcond)
  have hR : s ∈ (analyzeXmlChanges old_elements new_elements).removed.map
      (·.id) → (old_elements.lookup s).isSome ∧
        new_elements.lookup s = none := by
    intro hs
    rcases List.mem_map.mp hs with ⟨d, hd, hds⟩
    unfold analyzeXmlChanges at hd
    simp only at hd
    rcases List.mem_map.mp hd with ⟨p, hpf, hpd⟩
    rcases List.mem_filter.mp hpf with ⟨hpm, hpcond⟩
    have hkey : p.1 = s := by
      rw [← hold p hpm, hpd, hds]
    rw [← hkey]
    exact ⟨lookup_isSome_of_mem hpm,
      Option.isNone_iff_eq_none.mp (by simpa using hpcond)⟩
  have hM : s ∈ (analyzeXmlChanges old_elements new_elements).modified.map
      (·.id) → (old_elements.lookup s).isSome ∧
        (new_elements.lookup s).isSome := by
    intro hs
    rcases List.mem_map.mp hs with ⟨me, hme, hmes⟩
    unfold analyzeXmlChanges at hme
    simp only at hme
    rcases List.mem_filterMap.mp hme with ⟨p, hpm, hpf⟩
    split at hpf
    · exact absurd hpf (by simp)
    · next od hlk =>
      split at hpf
      · next hod =>
        have hid : me.id = p.1 := by
          injection hpf with h2
          rw [← h2]
        have hkey : p.1 = s := by rw [← hid, hmes]
        rw [← hkey]
        exact ⟨by rw [hlk]; rfl, lookup_isSome_of_mem hpm⟩
      · exact absurd hpf (by simp)
  refine ⟨?_, ?_, ?_⟩
  · rintro ⟨ha, hr⟩
    have h1 := hA ha
    have h2 := (hR hr).1
    rw [h1] at h2
    simp at h2
  · rintro ⟨ha, hm⟩
    have h1 := hA ha
    have h2 := (hM hm).1
    rw [h1] at h2
    simp at h2
  · rintro ⟨hr, hm⟩
    have h1 := (hR hr).2
    have h2 := (hM hm).2
    rw [h1] at h2
    simp at h2

/-- Witness for C9: an element present only in `old` is classified removed
and in no other class. -/
theorem c9_classification_disjoint_witness :
    (∀ p ∈ [("k", elemK)], p.2.id = p.1) ∧
    ¬("k" ∈ (analyzeXmlChanges [("k", elemK)] []).added.map (·.id) ∧
      "k" ∈ (analyzeXmlChanges [("k", elemK)] []).removed.map (·.id)) :=
  ⟨by decide,
   (c9_classification_disjoint [("k", elemK)] [] (by decide) (by decide)
     "k").1⟩

end ReleaseReport
